import Mathlib

/-
Verification of the core string-processing and request-construction logic of
the essdive-mcp repository (src/src/essdive_mcp/main.py).

Modelling conventions:
* Python strings are embedded as `List Char` (`PyStr`); Python `None` for an
  optional string is `Option.none`.
* Python whitespace (as used by `str.strip` and the regex class `\s`) is
  modelled by the ASCII whitespace characters; non-ASCII whitespace is outside
  the model.
* The two character-scanning loops that the source delegates to the runtime
  (`str.replace` and `re.sub(r"\s+", " ")`) are embedded with an explicit fuel
  argument equal to the string length, which makes the recursion structural and
  keeps every definition computable by the kernel; fuel-irrelevance lemmas below
  show the fuel bound never bites.
* The `csv` module is modelled as newline/comma splitting (quoting is outside
  the model); `csv.DictReader` row lookup, including its `restval=None` filling
  of short rows and last-duplicate-wins dict construction, is modelled by
  `cellValue`.  A `none` cell models Python `None`, on which `.strip()` raises.
* HTTP calls are external: the embeddings of the API-client functions produce
  the request parameters that would be transmitted, and the paginated tool loop
  is parameterised by an oracle mapping the transmitted row offset to the
  remote JSON page.
-/

namespace EssdiveMCP

abbrev PyStr := List Char

/-- ASCII whitespace, the characters matched by `str.strip()` and `\s`
(space, tab, newline, carriage return, vertical tab, form feed). -/
def isPyWs (c : Char) : Bool :=
  c = ' ' || c = '\t' || c = '\n' || c = '\r' || c = '\x0b' || c = '\x0c'

/-- Python `str.lstrip()`. -/
def lstripPy (l : PyStr) : PyStr := l.dropWhile isPyWs

/-- Python `str.rstrip()`. -/
def rstripPy (l : PyStr) : PyStr := (l.reverse.dropWhile isPyWs).reverse

/-- Python `str.strip()`. -/
def stripPy (l : PyStr) : PyStr := rstripPy (lstripPy l)

/-- The three chained `str.replace` calls of `sanitize_tsv_field`
(`\r`, `\n`, `\t` each become a single space); since every pattern is a single
character the chain is a character map. -/
def replCtl (c : Char) : Char :=
  if c = '\r' || c = '\n' || c = '\t' then ' ' else c

/-- Fuel-indexed worker for `re.sub(r"\s+", " ", value)`: each maximal run of
whitespace becomes one space.  Fuel bounds the number of characters consumed,
so `l.length` fuel always suffices. -/
def collapseWsGo : Nat → PyStr → PyStr
  | _, [] => []
  | 0, l => l
  | fuel + 1, c :: rest =>
    if isPyWs c then ' ' :: collapseWsGo fuel (rest.dropWhile isPyWs)
    else c :: collapseWsGo fuel rest

/-- `re.sub(r"\s+", " ", value)`. -/
def collapseWs (l : PyStr) : PyStr := collapseWsGo l.length l

/-- Core of `sanitize_tsv_field` on an actual string: replace `\r`/`\n`/`\t`
with spaces, collapse whitespace runs, strip. -/
def sanitizeStr (s : PyStr) : PyStr := stripPy (collapseWs (s.map replCtl))

/-- Python scalar values reaching `sanitize_tsv_field`: `None`, a string, or a
non-string (represented by an integer, coerced via `str(value)`). -/
inductive PyVal where
  | vnone : PyVal
  | vstr (s : PyStr) : PyVal
  | vint (n : Int) : PyVal

/-- `sanitize_tsv_field` (main.py lines 53-68). -/
def sanitize_tsv_field : PyVal → PyStr
  | .vnone => []
  | .vstr s => sanitizeStr s
  | .vint n => sanitizeStr (toString n).toList

/-- Python `s.startswith(pat)`. -/
def startsWithPy : PyStr → PyStr → Bool
  | _, [] => true
  | [], _ :: _ => false
  | c :: s, p :: ps => if c = p then startsWithPy s ps else false

/-- Fuel-indexed worker for Python `s.replace(pat, rep)`: replaces every
non-overlapping occurrence of `pat`, scanning left to right.  Each step
consumes at least one character, so `l.length` fuel suffices.  (The source
never calls it with an empty pattern; that case is modelled as the
identity.) -/
def replaceAllGo (pat rep : PyStr) : Nat → PyStr → PyStr
  | _, [] => []
  | 0, l => l
  | fuel + 1, c :: rest =>
    if pat ≠ [] ∧ startsWithPy (c :: rest) pat = true then
      rep ++ replaceAllGo pat rep fuel ((c :: rest).drop pat.length)
    else c :: replaceAllGo pat rep fuel rest

/-- Python `s.replace(pat, rep)`. -/
def replaceAll (pat rep l : PyStr) : PyStr := replaceAllGo pat rep l.length l

def doiOrgPat : PyStr := 'd' :: 'o' :: 'i' :: '.' :: 'o' :: 'r' :: 'g' :: '/' :: []

def httpPat : PyStr := 'h' :: 't' :: 't' :: 'p' :: ':' :: '/' :: '/' :: doiOrgPat

def httpsPat : PyStr := 'h' :: 't' :: 't' :: 'p' :: 's' :: ':' :: '/' :: '/' :: doiOrgPat

def doiColon : PyStr := 'd' :: 'o' :: 'i' :: ':' :: []

/-- The `if`/`elif` chain of `_normalize_doi` (main.py lines 332-337): for the
first matching URL-style pattern, apply `str.replace(pattern, "")` (which
removes every occurrence, not just the leading one). -/
def stripDoiUrl (t : PyStr) : PyStr :=
  if startsWithPy t httpsPat then replaceAll httpsPat [] t
  else if startsWithPy t httpPat then replaceAll httpPat [] t
  else if startsWithPy t doiOrgPat then replaceAll doiOrgPat [] t
  else t

/-- Lines 340-341 of `_normalize_doi`: prepend `doi:` unless already present. -/
def ensureDoiColon (t : PyStr) : PyStr :=
  if startsWithPy t doiColon then t else doiColon ++ t

/-- `_normalize_doi` (main.py lines 320-343): strip surrounding whitespace,
then the `if`/`elif` chain on `startswith` applying `str.replace(prefix, "")`
for the first matching URL-style prefix, then prepend `doi:` unless the string
already starts with `doi:`. -/
def _normalize_doi (s : PyStr) : PyStr :=
  ensureDoiColon (stripDoiUrl (stripPy s))

/-- ASCII lowercasing, modelling `str.lower()` on the header cells. -/
def toLowerPy (c : Char) : Char :=
  if 'A' ≤ c ∧ c ≤ 'Z' then Char.ofNat (c.toNat + 32) else c

def isLowerAlnum (c : Char) : Bool :=
  ('a' ≤ c && c ≤ 'z') || ('0' ≤ c && c ≤ '9')

/-- `_norm_header_key` (main.py lines 71-75): lowercase, then delete every
character outside `[a-z0-9]`. -/
def _norm_header_key (h : PyStr) : PyStr :=
  (h.map toLowerPy).filter isLowerAlnum

def filenameKeys : List PyStr := ["filename", "file_name", "name"].map String.toList

def descriptionKeys : List PyStr :=
  ["filedescription", "file_description", "description"].map String.toList

def isFilenameHeader (f : PyStr) : Bool := decide (_norm_header_key f ∈ filenameKeys)

def isDescriptionHeader (f : PyStr) : Bool := decide (_norm_header_key f ∈ descriptionKeys)

/-- One step of the header scan of `parse_flmd_file` (main.py lines 97-102):
a filename match overwrites `filename_col`, otherwise a description match
overwrites `description_col`. -/
def findColsStep (acc : Option PyStr × Option PyStr) (f : PyStr) :
    Option PyStr × Option PyStr :=
  if isFilenameHeader f then (some f, acc.2)
  else if isDescriptionHeader f then (acc.1, some f)
  else acc

/-- The header scan of `parse_flmd_file` (main.py lines 97-102): a single pass
over the field names applying `findColsStep`. -/
def findCols (fields : List PyStr) : Option PyStr × Option PyStr :=
  fields.foldl findColsStep (Option.none, Option.none)

/-- Split a character list at every occurrence of `sep`. -/
def splitOnChar (sep : Char) : PyStr → List PyStr
  | [] => [[]]
  | c :: rest =>
    match splitOnChar sep rest with
    | [] => [[]]
    | g :: gs => if c = sep then [] :: g :: gs else (c :: g) :: gs

/-- The `csv.reader` view of the FLMD text: lines split on newlines, fields on
commas; a blank line is the empty row `[]` (which `DictReader` skips).
Quoting is outside the model. -/
def parseCsvRows (content : PyStr) : List (List PyStr) :=
  (splitOnChar '\n' content).map (fun line => if line = [] then [] else splitOnChar ',' line)

/-- `csv.DictReader` cell lookup `row.get(name, "")`: the row dict pairs each
field name with the cell at its position, positions beyond the row length
getting `restval=None` (modelled `none`), later duplicate names overwriting
earlier ones; a name absent from the header would give the `""` default. -/
def cellValue (headers row : List PyStr) (name : PyStr) : Option PyStr :=
  match ((headers.enum.map (fun p => (p.2, row[p.1]?))).filter
      (fun q => decide (q.1 = name))).getLast? with
  | some q => q.2
  | none => some []

/-- Insertion-ordered dict assignment `d[k] = v`. -/
def dictInsert (d : List (PyStr × PyStr)) (k v : PyStr) : List (PyStr × PyStr) :=
  if d.any (fun p => decide (p.1 = k)) then
    d.map (fun p => if p.1 = k then (k, v) else p)
  else d ++ [(k, v)]

/-- One data-row step of `parse_flmd_file` (main.py lines 108-113).  `none`
models the `AttributeError` raised by `.strip()` when the looked-up cell is
Python `None` (a short row); the filename cell is stripped first, as in the
source. -/
def processRow (headers : List PyStr) (fcol dcol : PyStr) (acc : List (PyStr × PyStr))
    (row : List PyStr) : Option (List (PyStr × PyStr)) :=
  match cellValue headers row fcol with
  | Option.none => Option.none
  | some fv =>
    match cellValue headers row dcol with
    | Option.none => Option.none
    | some dv =>
      let filename := stripPy fv
      let description := stripPy dv
      if filename ≠ [] ∧ description ≠ [] then
        some (dictInsert acc filename (sanitizeStr description))
      else some acc

/-- The row loop of `parse_flmd_file` under its `try`/`except`: blank rows are
skipped by `DictReader`; a raising row aborts the loop and the accumulated
mapping is returned by the `except` handler. -/
def runRows (headers : List PyStr) (fcol dcol : PyStr) :
    List (List PyStr) → List (PyStr × PyStr) → List (PyStr × PyStr)
  | [], acc => acc
  | r :: rs, acc =>
    if r = [] then runRows headers fcol dcol rs acc
    else
      match processRow headers fcol dcol acc r with
      | some acc2 => runRows headers fcol dcol rs acc2
      | Option.none => acc

/-- Header phase of `parse_flmd_file` (main.py lines 89-105): read the header
row, run the column scan, and return the header, the two column names and the
data rows, or `none` when `reader.fieldnames` is falsy or either column is
missing (the empty-string column name case is included in the falsiness
check, as in `if not filename_col or not description_col`). -/
def headerSetup (content : PyStr) :
    Option (List PyStr × PyStr × PyStr × List (List PyStr)) :=
  match parseCsvRows content with
  | [] => Option.none
  | header :: dataRows =>
    if header = [] then Option.none
    else
      match findCols header with
      | (some f, some d) =>
        if f = [] ∨ d = [] then Option.none else some (header, f, d, dataRows)
      | _ => Option.none

/-- `parse_flmd_file` (main.py lines 78-118). -/
def parse_flmd_file (content : PyStr) : List (PyStr × PyStr) :=
  match headerSetup content with
  | Option.none => []
  | some (h, f, d, rows) => runRows h f d rows []

/-- Modelled from the spec (claim C2's wording): a header-scan variant in which
the FIRST header matching a recognised filename (resp. description) name is
kept, for comparison with the overwrite behaviour of the source. -/
def findColsFirstMatch (fields : List PyStr) : Option PyStr × Option PyStr :=
  fields.foldl
    (fun acc f =>
      if acc.1 = Option.none ∧ isFilenameHeader f then (some f, acc.2)
      else if acc.2 = Option.none ∧ isDescriptionHeader f then (acc.1, some f)
      else acc)
    (Option.none, Option.none)

/-- `parse_flmd_file` as claim C2 states it, i.e. with the first-match header
scan; identical to `parse_flmd_file` in every other respect. -/
def parseFlmdFirstMatch (content : PyStr) : List (PyStr × PyStr) :=
  match parseCsvRows content with
  | [] => []
  | header :: dataRows =>
    if header = [] then []
    else
      match findColsFirstMatch header with
      | (some f, some d) =>
        if f = [] ∨ d = [] then [] else runRows header f d dataRows []
      | _ => []

/-- Predicate: this data row is processed without raising (it is blank and
skipped, or both tracked cells are present, i.e. not `restval=None`). -/
def rowOk (headers : List PyStr) (fcol dcol : PyStr) (r : List PyStr) : Bool :=
  decide (r = []) ||
    ((cellValue headers r fcol).isSome && (cellValue headers r dcol).isSome)

/-- The effect of one row on the accumulated mapping, with a raising row
leaving the mapping unchanged (it is the value the `except` handler returns). -/
def applyRow (headers : List PyStr) (fcol dcol : PyStr)
    (acc : List (PyStr × PyStr)) (r : List PyStr) : List (PyStr × PyStr) :=
  if r = [] then acc
  else
    match processRow headers fcol dcol acc r with
    | some acc2 => acc2
    | Option.none => acc

/-- Python truthiness filter for an optional string request parameter:
`if value: params[key] = value` includes the key only for a non-`None`,
non-empty string. -/
def optIfTruthy (o : Option PyStr) : Option PyStr :=
  match o with
  | some s => if s = [] then Option.none else some s
  | Option.none => Option.none

/-- `str(b).lower()` for a Python bool. -/
def pyBoolLower (b : Bool) : PyStr :=
  if b then "true".toList else "false".toList

/-- The query parameters of a catalog `/packages` search request. -/
structure CatalogParams where
  rowStart : Int
  pageSize : Int
  isPublic : Option PyStr
  creator : Option PyStr
  providerName : Option PyStr
  text : Option PyStr
  datePublished : Option PyStr
  keywords : Option (List PyStr)
deriving DecidableEq

/-- Request construction of `ESSDiveClient.search_datasets` (main.py lines
169-188): pagination always present; `isPublic` serialised via
`str(is_public).lower()` whenever `is_public is not None`; the other filters
included only when truthy; `keywords` when a non-empty list. -/
def clientSearchDatasetsParams (row_start page_size : Int) (is_public : Option Bool)
    (creator provider_name text date_published : Option PyStr)
    (keywords : Option (List PyStr)) : CatalogParams :=
  { rowStart := row_start
    pageSize := page_size
    isPublic :=
      match is_public with
      | some b => some (pyBoolLower b)
      | Option.none => Option.none
    creator := optIfTruthy creator
    providerName := optIfTruthy provider_name
    text := optIfTruthy text
    datePublished := optIfTruthy date_published
    keywords :=
      match keywords with
      | some l => if l = [] then Option.none else some l
      | Option.none => Option.none }

/-- The `keywords` argument of the `search-datasets` tool: `None`, a string,
or a list of strings. -/
inductive KwArg where
  | knone : KwArg
  | kstr (s : PyStr) : KwArg
  | klist (l : List PyStr) : KwArg

/-- `keywords_list` computation of the `search-datasets` tool (main.py lines
610-615): truthiness check first, then string-to-singleton-list conversion. -/
def toolKeywordsList : KwArg → Option (List PyStr)
  | .knone => Option.none
  | .kstr s => if s = [] then Option.none else some [s]
  | .klist l => if l = [] then Option.none else some l

/-- `text` computation of the `search-datasets` tool (main.py lines 619-621):
the free-text query is used only when it is truthy and none of creator,
provider name, keywords list is truthy. -/
def toolText (query creator provider_name : Option PyStr)
    (kwl : Option (List PyStr)) : Option PyStr :=
  match query with
  | some q =>
    if q ≠ [] ∧ optIfTruthy creator = Option.none ∧
        optIfTruthy provider_name = Option.none ∧ kwl = Option.none then
      some q
    else Option.none
  | Option.none => Option.none

/-- The catalog request issued by the `search-datasets` tool (main.py lines
581-633): it always passes `is_public=True` to the client and exposes no
parameter to change that. -/
def searchDatasetsToolParams (query creator provider_name date_published : Option PyStr)
    (keywords : KwArg) (row_start page_size : Int) : CatalogParams :=
  let kwl := toolKeywordsList keywords
  clientSearchDatasetsParams row_start page_size (some true) creator provider_name
    (toolText query creator provider_name kwl) date_published kwl

/-- The query parameters of an ESS-DeepDive field-index search request. -/
structure DeepDiveParams where
  rowStart : Int
  pageSize : Int
  fieldName : Option PyStr
  fieldDefinition : Option PyStr
  fieldValueText : Option PyStr
  fieldValueNumeric : Option Int
  fieldValueDate : Option PyStr
  recordCountMin : Option Int
  recordCountMax : Option Int
  doi : Option (List PyStr)
deriving DecidableEq

/-- The non-pagination arguments of `search_ess_deepdive`, held fixed across a
multi-page fetch.  The numeric filter is modelled over `Int` (float inputs are
outside the model). -/
structure DeepDiveArgs where
  field_name : Option PyStr
  field_definition : Option PyStr
  field_value_text : Option PyStr
  field_value_numeric : Option Int
  field_value_date : Option PyStr
  record_count_min : Option Int
  record_count_max : Option Int
  doi : Option (List PyStr)
deriving DecidableEq

/-- Request construction of `search_ess_deepdive` (main.py lines 453-473):
`pageSize` is `min(page_size, 100)`; truthy string filters and `is not None`
numeric filters are included; a truthy DOI list is truncated to its first 100
entries by `doi[:100]`. -/
def search_ess_deepdive (a : DeepDiveArgs) (row_start page_size : Int) : DeepDiveParams :=
  { rowStart := row_start
    pageSize := min page_size 100
    fieldName := optIfTruthy a.field_name
    fieldDefinition := optIfTruthy a.field_definition
    fieldValueText := optIfTruthy a.field_value_text
    fieldValueNumeric := a.field_value_numeric
    fieldValueDate := optIfTruthy a.field_value_date
    recordCountMin := a.record_count_min
    recordCountMax := a.record_count_max
    doi :=
      match a.doi with
      | some l => if l = [] then Option.none else some (l.take 100)
      | Option.none => Option.none }

/-- A remote field-index page as the tool loop reads it: the `results` list
(absent when the JSON has no `results` key; items abstracted as `Nat`) and
`result.get("pageCount", 0)` (so a missing page count is `0`). -/
structure DeepDivePage where
  results : Option (List Nat)
  pageCount : Int
deriving DecidableEq

/-- The `while pages_fetched < max_pages` loop of `search_ess_deepdive_tool`
(main.py lines 902-931), with fuel `max_pages - pages_fetched`: fetch the page
at the current row offset, append its `results` items if present, stop if the
reported page count is falsy or at most 1, otherwise advance the offset by
`page_size`.  Returns the accumulated items and the trace of transmitted
requests.  `oracle` maps a transmitted row offset to the remote page. -/
def fetchLoopGo (a : DeepDiveArgs) (page_size : Int) (oracle : Int → DeepDivePage) :
    Nat → Int → List Nat × List DeepDiveParams
  | 0, _ => ([], [])
  | fuel + 1, row =>
    let req := search_ess_deepdive a row page_size
    let page := oracle row
    let items := page.results.getD []
    if page.pageCount ≤ 1 then (items, [req])
    else
      let rest := fetchLoopGo a page_size oracle fuel (row + page_size)
      (items ++ rest.1, req :: rest.2)

/-- The row offset transmitted by the `i`-th fetch of the multi-page loop:
`current_row` starts at `row_start` and advances by `page_size` after every
fetch that continues. -/
def fetchRow (row_start page_size : Int) (i : Nat) : Int :=
  row_start + i * page_size

/-- The multi-page branch of `search_ess_deepdive_tool` (taken when
`max_pages > 1`): run the fetch loop from the given row offset. -/
def search_ess_deepdive_tool_multipage (a : DeepDiveArgs) (oracle : Int → DeepDivePage)
    (max_pages : Nat) (row_start page_size : Int) : List Nat × List DeepDiveParams :=
  fetchLoopGo a page_size oracle max_pages row_start

/-- A dataset `description` value: absent, a string, or a list of strings. -/
inductive DescVal where
  | dabsent : DescVal
  | dstr (s : PyStr) : DescVal
  | dlist (l : List PyStr) : DescVal

/-- A dataset `keywords` value: absent, a string, or a list of strings. -/
inductive KwVal where
  | kwabsent : KwVal
  | kwstr (s : PyStr) : KwVal
  | kwlist (l : List PyStr) : KwVal

/-- The description after the list normalisation of `format_results` (main.py
lines 298-300): `ds_data.get("description", "")`, then a list is joined with
`" ".join`. -/
def joinedDescription : DescVal → PyStr
  | .dabsent => []
  | .dstr s => s
  | .dlist l => List.intercalate [' '] l

/-- The description line of a `detailed` entry (main.py lines 301-302): emitted
only for a truthy (joined) description, sliced by `description[:300]` with
`'...'` appended exactly when `len(description) > 300`. -/
def descriptionPart (d : DescVal) : PyStr :=
  let j := joinedDescription d
  if j = [] then []
  else
    "   Description: ".toList ++ j.take 300 ++
      (if 300 < j.length then "...".toList else []) ++ ['\n']

/-- The keywords line of a `detailed` entry (main.py lines 305-309): emitted
only for truthy keywords, a string being wrapped into a one-element list, then
comma-joined. -/
def keywordsPart (kw : KwVal) : PyStr :=
  match kw with
  | .kwabsent => []
  | .kwstr s =>
    if s = [] then [] else "   Keywords: ".toList ++ s ++ ['\n']
  | .kwlist l =>
    if l = [] then [] else "   Keywords: ".toList ++ List.intercalate (", ".toList) l ++ ['\n']

/-- The `"dataset"` sub-object of a search-result item. -/
structure DsData where
  name : Option PyStr
  datePublished : Option PyStr
  description : DescVal
  keywords : KwVal

/-- One item of the catalog `result` list. -/
structure DatasetEntry where
  dataset : Option DsData
  id : Option PyStr
  viewUrl : Option PyStr

def natToStr (i : Nat) : PyStr := (toString i).toList

/-- One entry of the `detailed` rendering of `format_results` (main.py lines
290-309), excluding the inter-entry blank line: header lines with their
`Untitled`/`Unknown` fallbacks, then the description line, then the keywords
line. -/
def detailedEntry (idx : Nat) (e : DatasetEntry) : PyStr :=
  let ds := e.dataset.getD ⟨Option.none, Option.none, DescVal.dabsent, KwVal.kwabsent⟩
  natToStr idx ++ ". ".toList ++ ds.name.getD "Untitled".toList ++ ['\n'] ++
    "   ID: ".toList ++ e.id.getD "Unknown".toList ++ ['\n'] ++
    "   Published: ".toList ++ ds.datePublished.getD "Unknown".toList ++ ['\n'] ++
    "   URL: ".toList ++ e.viewUrl.getD "Unknown".toList ++ ['\n'] ++
    descriptionPart ds.description ++
    keywordsPart ds.keywords

/-! Helper lemmas about the string primitives. -/

lemma dropWhile_head_false {p : Char → Bool} :
    ∀ {l : PyStr} {c : Char} {r : PyStr}, l.dropWhile p = c :: r → p c = false := by
  intro l
  induction l with
  | nil => intro c r h; simp at h
  | cons a t ih =>
    intro c r h
    rw [List.dropWhile_cons] at h
    split at h
    · exact ih h
    · next hpa => cases h; simpa using hpa

lemma collapseWsGo_congr :
    ∀ (f1 f2 : Nat) (l : PyStr), l.length ≤ f1 → l.length ≤ f2 →
      collapseWsGo f1 l = collapseWsGo f2 l := by
  intro f1
  induction f1 with
  | zero =>
    intro f2 l h1 _
    have hl : l = [] := List.eq_nil_of_length_eq_zero (Nat.le_zero.mp h1)
    subst hl
    cases f2 <;> rfl
  | succ f ih =>
    intro f2 l h1 h2
    cases l with
    | nil => cases f2 <;> rfl
    | cons c rest =>
      cases f2 with
      | zero => simp at h2
      | succ f2' =>
        have hr : rest.length ≤ f := by simpa using h1
        have hr2 : rest.length ≤ f2' := by simpa using h2
        have hd : (rest.dropWhile isPyWs).length ≤ f :=
          le_trans (List.dropWhile_suffix _).length_le hr
        have hd2 : (rest.dropWhile isPyWs).length ≤ f2' :=
          le_trans (List.dropWhile_suffix _).length_le hr2
        simp only [collapseWsGo]
        by_cases hws : isPyWs c = true
        · rw [if_pos hws, if_pos hws, ih f2' _ hd hd2]
        · rw [if_neg hws, if_neg hws, ih f2' _ hr hr2]

lemma collapseWs_cons_ws {c : Char} {rest : PyStr} (h : isPyWs c = true) :
    collapseWs (c :: rest) = ' ' :: collapseWs (rest.dropWhile isPyWs) := by
  unfold collapseWs
  rw [List.length_cons]
  simp only [collapseWsGo, if_pos h]
  exact congrArg (' ' :: ·)
    (collapseWsGo_congr _ _ _ (le_trans (List.dropWhile_suffix _).length_le le_rfl) le_rfl)

lemma collapseWs_cons_not_ws {c : Char} {rest : PyStr} (h : isPyWs c = false) :
    collapseWs (c :: rest) = c :: collapseWs rest := by
  unfold collapseWs
  rw [List.length_cons]
  simp only [collapseWsGo, h]
  rfl

lemma replaceAllGo_congr (pat rep : PyStr) :
    ∀ (f1 f2 : Nat) (l : PyStr), l.length ≤ f1 → l.length ≤ f2 →
      replaceAllGo pat rep f1 l = replaceAllGo pat rep f2 l := by
  intro f1
  induction f1 with
  | zero =>
    intro f2 l h1 _
    have hl : l = [] := List.eq_nil_of_length_eq_zero (Nat.le_zero.mp h1)
    subst hl
    cases f2 <;> rfl
  | succ f ih =>
    intro f2 l h1 h2
    cases l with
    | nil => cases f2 <;> rfl
    | cons c rest =>
      cases f2 with
      | zero => simp at h2
      | succ f2' =>
        have hr : rest.length ≤ f := by simpa using h1
        have hr2 : rest.length ≤ f2' := by simpa using h2
        simp only [replaceAllGo]
        by_cases hc : pat ≠ [] ∧ startsWithPy (c :: rest) pat = true
        · rw [if_pos hc, if_pos hc]
          have hp : 0 < pat.length := List.length_pos.mpr hc.1
          have hd : ((c :: rest).drop pat.length).length ≤ f := by
            rw [List.length_drop, List.length_cons]; omega
          have hd2 : ((c :: rest).drop pat.length).length ≤ f2' := by
            rw [List.length_drop, List.length_cons]; omega
          rw [ih f2' _ hd hd2]
        · rw [if_neg hc, if_neg hc, ih f2' _ hr hr2]

lemma replaceAll_cons_pos {pat : PyStr} (rep : PyStr) {c : Char} {rest : PyStr}
    (hp : pat ≠ []) (hs : startsWithPy (c :: rest) pat = true) :
    replaceAll pat rep (c :: rest) = rep ++ replaceAll pat rep ((c :: rest).drop pat.length) := by
  unfold replaceAll
  rw [List.length_cons]
  simp only [replaceAllGo, if_pos (And.intro hp hs)]
  have hp1 : 0 < pat.length := List.length_pos.mpr hp
  exact congrArg (rep ++ ·)
    (replaceAllGo_congr pat rep _ _ _
      (by rw [List.length_drop, List.length_cons]; omega) le_rfl)

lemma replaceAll_cons_neg {pat : PyStr} (rep : PyStr) {c : Char} {rest : PyStr}
    (hs : startsWithPy (c :: rest) pat = false) :
    replaceAll pat rep (c :: rest) = c :: replaceAll pat rep rest := by
  unfold replaceAll
  rw [List.length_cons]
  simp only [replaceAllGo]
  rw [if_neg (by simp [hs])]

lemma startsWithPy_iff : ∀ (pat s : PyStr), startsWithPy s pat = true ↔ ∃ r, s = pat ++ r := by
  intro pat
  induction pat with
  | nil =>
    intro s
    constructor
    · intro _
      exact ⟨s, rfl⟩
    · intro _
      cases s <;> rfl
  | cons p ps ih =>
    intro s
    cases s with
    | nil =>
      simp only [startsWithPy]
      constructor
      · intro h; exact absurd h (by simp)
      · rintro ⟨r, hr⟩; exact absurd hr (by simp)
    | cons c t =>
      simp only [startsWithPy]
      by_cases hcp : c = p
      · subst hcp
        rw [if_pos rfl, ih t]
        constructor
        · rintro ⟨r, rfl⟩; exact ⟨r, rfl⟩
        · rintro ⟨r, hr⟩
          rw [List.cons_append] at hr
          exact ⟨r, (List.cons.injEq _ _ _ _ ▸ hr).2⟩
      · rw [if_neg hcp]
        constructor
        · intro h; exact absurd h (by simp)
        · rintro ⟨r, hr⟩
          rw [List.cons_append] at hr
          exact absurd (List.cons.injEq _ _ _ _ ▸ hr).1 hcp

lemma startsWithPy_append (pat r : PyStr) : startsWithPy (pat ++ r) pat = true :=
  (startsWithPy_iff pat _).mpr ⟨r, rfl⟩

lemma replaceAll_of_not_infix (pat rep : PyStr) :
    ∀ l : PyStr, ¬ pat <:+: l → replaceAll pat rep l = l := by
  intro l
  induction l with
  | nil => intro _; rfl
  | cons c rest ih =>
    intro h
    have hs : startsWithPy (c :: rest) pat = false := by
      rcases hb : startsWithPy (c :: rest) pat with _ | _
      · rfl
      · obtain ⟨r, hr⟩ := (startsWithPy_iff pat _).mp hb
        exact absurd ⟨[], r, by rw [hr]; rfl⟩ h
    rw [replaceAll_cons_neg rep hs, ih (fun hin => h (List.infix_cons hin))]

lemma replaceAll_head_match {pat : PyStr} (rep r : PyStr) (hp : pat ≠ []) :
    replaceAll pat rep (pat ++ r) = rep ++ replaceAll pat rep r := by
  cases pat with
  | nil => exact absurd rfl hp
  | cons p ps =>
    rw [List.cons_append,
      replaceAll_cons_pos rep hp (by rw [← List.cons_append]; exact startsWithPy_append _ r)]
    rw [← List.cons_append, List.drop_left]

lemma lstripPy_append_ws {w : PyStr} (hw : ∀ c ∈ w, isPyWs c = true) (x : PyStr) :
    lstripPy (w ++ x) = lstripPy x := by
  unfold lstripPy
  rw [List.dropWhile_append]
  have hwnil : w.dropWhile isPyWs = [] := List.dropWhile_eq_nil_iff.mpr hw
  simp [hwnil]

lemma lstripPy_cons_not_ws {c : Char} {x : PyStr} (hc : isPyWs c = false) :
    lstripPy (c :: x) = c :: x := by
  unfold lstripPy
  rw [List.dropWhile_cons, if_neg (by simp [hc])]

lemma rstripPy_append_ws {w : PyStr} (hw : ∀ c ∈ w, isPyWs c = true) (x : PyStr) :
    rstripPy (x ++ w) = rstripPy x := by
  unfold rstripPy
  rw [List.reverse_append, List.dropWhile_append]
  have hwnil : w.reverse.dropWhile isPyWs = [] :=
    List.dropWhile_eq_nil_iff.mpr (fun c hc => hw c (List.mem_reverse.mp hc))
  simp [hwnil]

lemma rstripPy_append_eq (a b : PyStr) :
    rstripPy (a ++ b) = if rstripPy b = [] then rstripPy a else a ++ rstripPy b := by
  unfold rstripPy
  rw [List.reverse_append, List.dropWhile_append]
  by_cases hb : (b.reverse.dropWhile isPyWs).isEmpty = true
  · rw [if_pos hb]
    rw [if_pos (by simpa [List.isEmpty_iff] using hb)]
  · rw [if_neg hb]
    rw [if_neg (by simp [List.isEmpty_iff] at hb; simpa using hb)]
    rw [List.reverse_append, List.reverse_reverse]

lemma rstripPy_append_self (a b : PyStr) (hb : rstripPy b = b) (ha : rstripPy a = a) :
    rstripPy (a ++ b) = a ++ b := by
  by_cases hbe : b = []
  · subst hbe; simpa using ha
  · rw [rstripPy_append_eq, hb, if_neg hbe]

lemma rstripPy_append_exists (z : PyStr) : ∃ v, rstripPy z ++ v = z := by
  obtain ⟨t, ht⟩ := List.dropWhile_suffix (l := z.reverse) isPyWs
  refine ⟨t.reverse, ?_⟩
  unfold rstripPy
  rw [← List.reverse_append, ht, List.reverse_reverse]

lemma strip_sandwich {w1 w2 m : PyStr} (h1 : ∀ c ∈ w1, isPyWs c = true)
    (h2 : ∀ c ∈ w2, isPyWs c = true) (hm : rstripPy m = m)
    (hd : ∀ c r, m = c :: r → isPyWs c = false) :
    stripPy (w1 ++ m ++ w2) = m := by
  unfold stripPy
  rw [List.append_assoc, lstripPy_append_ws h1]
  cases m with
  | nil =>
    rw [List.nil_append,
      show lstripPy w2 = [] from List.dropWhile_eq_nil_iff.mpr h2]
    rfl
  | cons c r =>
    rw [List.cons_append, lstripPy_cons_not_ws (hd c r rfl), ← List.cons_append,
      rstripPy_append_ws h2, hm]

lemma stripPy_head_not_ws {l : PyStr} {y : Char} (h : (stripPy l).head? = some y) :
    isPyWs y = false := by
  unfold stripPy at h
  obtain ⟨v, hv⟩ := rstripPy_append_exists (lstripPy l)
  cases hr : rstripPy (lstripPy l) with
  | nil => rw [hr] at h; simp at h
  | cons a tl =>
    rw [hr] at h
    simp only [List.head?_cons, Option.some.injEq] at h
    subst h
    have hform : List.dropWhile isPyWs l = a :: (tl ++ v) := by
      rw [show List.dropWhile isPyWs l = lstripPy l from rfl, ← hv, hr, List.cons_append]
    exact dropWhile_head_false hform

lemma stripPy_getLast_not_ws {l : PyStr} {y : Char} (h : (stripPy l).getLast? = some y) :
    isPyWs y = false := by
  unfold stripPy rstripPy at h
  rw [List.getLast?_eq_head?_reverse, List.reverse_reverse] at h
  cases hq : (lstripPy l).reverse.dropWhile isPyWs with
  | nil => rw [hq] at h; simp at h
  | cons a tl =>
    rw [hq] at h
    simp only [List.head?_cons, Option.some.injEq] at h
    subst h
    exact dropWhile_head_false hq

lemma stripPy_within (l : PyStr) : stripPy l <:+: l := by
  obtain ⟨t, ht⟩ := List.dropWhile_suffix (l := l) isPyWs
  obtain ⟨v, hv⟩ := rstripPy_append_exists (lstripPy l)
  refine ⟨t, v, ?_⟩
  rw [List.append_assoc, show stripPy l = rstripPy (lstripPy l) from rfl, hv]
  exact ht

/-! Lemmas about the DOI normalizer. -/

lemma stripDoiUrl_none {t : PyStr} (h1 : startsWithPy t httpsPat = false)
    (h2 : startsWithPy t httpPat = false) (h3 : startsWithPy t doiOrgPat = false) :
    stripDoiUrl t = t := by
  unfold stripDoiUrl
  rw [if_neg (by simp [h1]), if_neg (by simp [h2]), if_neg (by simp [h3])]

lemma ensureDoiColon_pos {t : PyStr} (h : startsWithPy t doiColon = true) :
    ensureDoiColon t = t := by
  unfold ensureDoiColon
  rw [if_pos h]

lemma ensureDoiColon_neg {t : PyStr} (h : startsWithPy t doiColon = false) :
    ensureDoiColon t = doiColon ++ t := by
  unfold ensureDoiColon
  rw [if_neg (by simp [h])]

lemma doiOrg_infix_https : doiOrgPat <:+: httpsPat :=
  ⟨['h', 't', 't', 'p', 's', ':', '/', '/'], [], by rfl⟩

lemma doiOrg_infix_http : doiOrgPat <:+: httpPat :=
  ⟨['h', 't', 't', 'p', ':', '/', '/'], [], by rfl⟩

lemma replaceAll_ten_tail {pat X : PyStr}
    (h1 : startsWithPy ('1' :: '0' :: '.' :: X) pat = false)
    (h0 : startsWithPy ('0' :: '.' :: X) pat = false)
    (hdot : startsWithPy ('.' :: X) pat = false)
    (hX : ¬ pat <:+: X) :
    replaceAll pat [] ('1' :: '0' :: '.' :: X) = '1' :: '0' :: '.' :: X := by
  rw [replaceAll_cons_neg _ h1, replaceAll_cons_neg _ h0, replaceAll_cons_neg _ hdot,
    replaceAll_of_not_infix _ _ X hX]

lemma normalize_doi_has_doiColon (s : PyStr) : ∃ r, _normalize_doi s = doiColon ++ r := by
  unfold _normalize_doi ensureDoiColon
  by_cases h : startsWithPy (stripDoiUrl (stripPy s)) doiColon = true
  · rw [if_pos h]
    exact (startsWithPy_iff _ _).mp h
  · rw [if_neg h]
    exact ⟨stripDoiUrl (stripPy s), rfl⟩

lemma normalize_doi_of_doiColon (r : PyStr) :
    _normalize_doi (doiColon ++ r) = rstripPy (doiColon ++ r) := by
  have hstrip : stripPy (doiColon ++ r) = rstripPy (doiColon ++ r) := by
    unfold stripPy
    rw [show lstripPy (doiColon ++ r) = doiColon ++ r from
      lstripPy_cons_not_ws (by decide)]
  have hsplit : ∃ r', rstripPy (doiColon ++ r) = doiColon ++ r' := by
    rw [rstripPy_append_eq doiColon r]
    by_cases hre : rstripPy r = []
    · rw [if_pos hre]
      exact ⟨[], by decide⟩
    · rw [if_neg hre]
      exact ⟨rstripPy r, rfl⟩
  obtain ⟨r', hr'⟩ := hsplit
  unfold _normalize_doi
  rw [hstrip, hr']
  rw [stripDoiUrl_none (by simp [startsWithPy, doiColon, httpsPat, doiOrgPat])
    (by simp [startsWithPy, doiColon, httpPat, doiOrgPat])
    (by simp [startsWithPy, doiColon, doiOrgPat])]
  exact ensureDoiColon_pos (startsWithPy_append doiColon r')

/-- C7 (corrected): applying `_normalize_doi` a second time right-strips the
first result (the second pass strips whitespace, finds the `doi:` prefix
already present, and changes nothing else); hence normalization is idempotent
exactly when the first result carries no trailing whitespace, which the
replace-all prefix stripping can leave behind. -/
theorem c7_normalize_doi_double (s : PyStr) :
    _normalize_doi (_normalize_doi s) = rstripPy (_normalize_doi s) := by
  obtain ⟨r, hr⟩ := normalize_doi_has_doiColon s
  rw [hr, normalize_doi_of_doiColon]

/-- C7 counterexample: `_normalize_doi` is not idempotent, because
`str.replace` removes a non-leading URL-prefix occurrence and exposes trailing
whitespace, which only the second pass strips. -/
theorem c7_normalize_doi_counterexample :
    _normalize_doi (_normalize_doi ("https://doi.org/abc https://doi.org/".toList)) ≠
      _normalize_doi ("https://doi.org/abc https://doi.org/".toList) := by decide

/-- C1 (corrected, amended): for a DOI suffix `X` that has no trailing
whitespace and does not contain `doi.org/` as a substring (a condition forced
by the source's use of `str.replace`, which removes every occurrence of the
matched prefix rather than only the leading one), each of the five input
forms, surrounded by arbitrary whitespace, normalizes to exactly `doi:10.X`:
trimming, stripping of the first matching URL-style prefix (checked in the
order https, http, bare), and prepending `doi:` only when not already
present. -/
theorem c1_normalize_doi_forms (X w1 w2 : PyStr)
    (hw1 : ∀ c ∈ w1, isPyWs c = true) (hw2 : ∀ c ∈ w2, isPyWs c = true)
    (hX : ¬ doiOrgPat <:+: X) (hXr : rstripPy X = X) :
    _normalize_doi (w1 ++ ('1' :: '0' :: '.' :: X) ++ w2) =
        doiColon ++ '1' :: '0' :: '.' :: X ∧
    _normalize_doi (w1 ++ (doiColon ++ '1' :: '0' :: '.' :: X) ++ w2) =
        doiColon ++ '1' :: '0' :: '.' :: X ∧
    _normalize_doi (w1 ++ (httpsPat ++ '1' :: '0' :: '.' :: X) ++ w2) =
        doiColon ++ '1' :: '0' :: '.' :: X ∧
    _normalize_doi (w1 ++ (httpPat ++ '1' :: '0' :: '.' :: X) ++ w2) =
        doiColon ++ '1' :: '0' :: '.' :: X ∧
    _normalize_doi (w1 ++ (doiOrgPat ++ '1' :: '0' :: '.' :: X) ++ w2) =
        doiColon ++ '1' :: '0' :: '.' :: X := by
  have hXhttps : ¬ httpsPat <:+: X := fun h => hX (List.IsInfix.trans doiOrg_infix_https h)
  have hXhttp : ¬ httpPat <:+: X := fun h => hX (List.IsInfix.trans doiOrg_infix_http h)
  have hten : replaceAll httpsPat [] ('1' :: '0' :: '.' :: X) = '1' :: '0' :: '.' :: X :=
    replaceAll_ten_tail (by simp [startsWithPy, httpsPat, doiOrgPat])
      (by simp [startsWithPy, httpsPat, doiOrgPat])
      (by simp [startsWithPy, httpsPat, doiOrgPat]) hXhttps
  have hten2 : replaceAll httpPat [] ('1' :: '0' :: '.' :: X) = '1' :: '0' :: '.' :: X :=
    replaceAll_ten_tail (by simp [startsWithPy, httpPat, doiOrgPat])
      (by simp [startsWithPy, httpPat, doiOrgPat])
      (by simp [startsWithPy, httpPat, doiOrgPat]) hXhttp
  have hten3 : replaceAll doiOrgPat [] ('1' :: '0' :: '.' :: X) = '1' :: '0' :: '.' :: X :=
    replaceAll_ten_tail (by simp [startsWithPy, doiOrgPat])
      (by simp [startsWithPy, doiOrgPat])
      (by simp [startsWithPy, doiOrgPat]) hX
  refine ⟨?_, ?_, ?_, ?_, ?_⟩
  · have hstrip : stripPy (w1 ++ ('1' :: '0' :: '.' :: X) ++ w2) = '1' :: '0' :: '.' :: X :=
      strip_sandwich hw1 hw2
        (rstripPy_append_self ['1', '0', '.'] X hXr (by decide))
        (by intro c r h; cases h; decide)
    unfold _normalize_doi
    rw [hstrip]
    rw [stripDoiUrl_none (by simp [startsWithPy, httpsPat, doiOrgPat])
      (by simp [startsWithPy, httpPat, doiOrgPat])
      (by simp [startsWithPy, doiOrgPat])]
    exact ensureDoiColon_neg (by simp [startsWithPy, doiColon])
  · have hstrip : stripPy (w1 ++ (doiColon ++ '1' :: '0' :: '.' :: X) ++ w2) =
        doiColon ++ '1' :: '0' :: '.' :: X :=
      strip_sandwich hw1 hw2
        (rstripPy_append_self ['d', 'o', 'i', ':', '1', '0', '.'] X hXr (by decide))
        (by intro c r h; cases h; decide)
    unfold _normalize_doi
    rw [hstrip]
    rw [stripDoiUrl_none (by simp [startsWithPy, doiColon, httpsPat, doiOrgPat])
      (by simp [startsWithPy, doiColon, httpPat, doiOrgPat])
      (by simp [startsWithPy, doiColon, doiOrgPat])]
    exact ensureDoiColon_pos (startsWithPy_append doiColon _)
  · have hstrip : stripPy (w1 ++ (httpsPat ++ '1' :: '0' :: '.' :: X) ++ w2) =
        httpsPat ++ '1' :: '0' :: '.' :: X :=
      strip_sandwich hw1 hw2
        (rstripPy_append_self
          ['h', 't', 't', 'p', 's', ':', '/', '/', 'd', 'o', 'i', '.', 'o', 'r', 'g', '/',
            '1', '0', '.'] X hXr (by decide))
        (by intro c r h; cases h; decide)
    unfold _normalize_doi
    rw [hstrip]
    rw [show stripDoiUrl (httpsPat ++ '1' :: '0' :: '.' :: X) =
        replaceAll httpsPat [] (httpsPat ++ '1' :: '0' :: '.' :: X) from by
      unfold stripDoiUrl
      rw [if_pos (startsWithPy_append httpsPat _)]]
    rw [replaceAll_head_match [] _ (by decide), List.nil_append, hten]
    exact ensureDoiColon_neg (by simp [startsWithPy, doiColon])
  · have hstrip : stripPy (w1 ++ (httpPat ++ '1' :: '0' :: '.' :: X) ++ w2) =
        httpPat ++ '1' :: '0' :: '.' :: X :=
      strip_sandwich hw1 hw2
        (rstripPy_append_self
          ['h', 't', 't', 'p', ':', '/', '/', 'd', 'o', 'i', '.', 'o', 'r', 'g', '/',
            '1', '0', '.'] X hXr (by decide))
        (by intro c r h; cases h; decide)
    unfold _normalize_doi
    rw [hstrip]
    rw [show stripDoiUrl (httpPat ++ '1' :: '0' :: '.' :: X) =
        replaceAll httpPat [] (httpPat ++ '1' :: '0' :: '.' :: X) from by
      unfold stripDoiUrl
      rw [if_neg (by simp [startsWithPy, httpPat, httpsPat, doiOrgPat]),
        if_pos (startsWithPy_append httpPat _)]]
    rw [replaceAll_head_match [] _ (by decide), List.nil_append, hten2]
    exact ensureDoiColon_neg (by simp [startsWithPy, doiColon])
  · have hstrip : stripPy (w1 ++ (doiOrgPat ++ '1' :: '0' :: '.' :: X) ++ w2) =
        doiOrgPat ++ '1' :: '0' :: '.' :: X :=
      strip_sandwich hw1 hw2
        (rstripPy_append_self
          ['d', 'o', 'i', '.', 'o', 'r', 'g', '/', '1', '0', '.'] X hXr (by decide))
        (by intro c r h; cases h; decide)
    unfold _normalize_doi
    rw [hstrip]
    rw [show stripDoiUrl (doiOrgPat ++ '1' :: '0' :: '.' :: X) =
        replaceAll doiOrgPat [] (doiOrgPat ++ '1' :: '0' :: '.' :: X) from by
      unfold stripDoiUrl
      rw [if_neg (by simp [startsWithPy, doiOrgPat, httpsPat]),
        if_neg (by simp [startsWithPy, doiOrgPat, httpPat]),
        if_pos (startsWithPy_append doiOrgPat _)]]
    rw [replaceAll_head_match [] _ (by decide), List.nil_append, hten3]
    exact ensureDoiColon_neg (by simp [startsWithPy, doiColon])

/-- C1 counterexample: with suffix `X = 1/doi.org/2`, the `doi.org/` form does
not normalize to `doi:10.X` — `str.replace` also deletes the interior
`doi.org/` occurrence, so the remainder of the string is not left unchanged. -/
theorem c1_normalize_doi_counterexample :
    _normalize_doi ("doi.org/10.1/doi.org/2".toList) = "doi:10.1/2".toList ∧
    _normalize_doi ("doi.org/10.1/doi.org/2".toList) ≠ "doi:10.1/doi.org/2".toList := by
  decide

/-- C1 witness: the amended statement evaluated at the concrete suffix `456/x`
with one space of surrounding whitespace. -/
theorem c1_normalize_doi_witness :
    _normalize_doi ((" ".toList) ++ ('1' :: '0' :: '.' :: "456/x".toList) ++ (" ".toList)) =
        doiColon ++ '1' :: '0' :: '.' :: "456/x".toList ∧
    _normalize_doi ((" ".toList) ++ (httpsPat ++ '1' :: '0' :: '.' :: "456/x".toList) ++ (" ".toList)) =
        doiColon ++ '1' :: '0' :: '.' :: "456/x".toList := by
  have h := c1_normalize_doi_forms ("456/x".toList) (" ".toList) (" ".toList)
    (by decide) (by decide) (by decide) (by decide)
  exact ⟨h.1, h.2.2.1⟩

/-! Lemmas about the FLMD header scan. -/

lemma not_both_headers (f : PyStr) :
    ¬ (isFilenameHeader f = true ∧ isDescriptionHeader f = true) := by
  rintro ⟨h1, h2⟩
  simp only [isFilenameHeader, filenameKeys, decide_eq_true_eq, List.map_cons, List.map_nil,
    List.mem_cons, List.not_mem_nil, or_false] at h1
  simp only [isDescriptionHeader, descriptionKeys, decide_eq_true_eq, List.map_cons,
    List.map_nil, List.mem_cons, List.not_mem_nil, or_false] at h2
  rcases h1 with h | h | h <;> rcases h2 with g | g | g <;> rw [h] at g <;>
    exact absurd g (by decide)

lemma findColsStep_fst (p : Option PyStr × Option PyStr) (f : PyStr) :
    (findColsStep p f).1 = (List.find? isFilenameHeader [f]).or p.1 := by
  unfold findColsStep
  by_cases h1 : isFilenameHeader f = true
  · rw [if_pos h1]
    simp [List.find?, h1]
  · rw [if_neg h1]
    by_cases h2 : isDescriptionHeader f = true
    · rw [if_pos h2]
      simp [List.find?, Bool.eq_false_iff.mpr h1]
    · rw [if_neg h2]
      simp [List.find?, Bool.eq_false_iff.mpr h1]

lemma findColsStep_snd (p : Option PyStr × Option PyStr) (f : PyStr) :
    (findColsStep p f).2 = (List.find? isDescriptionHeader [f]).or p.2 := by
  unfold findColsStep
  by_cases h1 : isFilenameHeader f = true
  · rw [if_pos h1]
    have h2 : isDescriptionHeader f = false :=
      Bool.eq_false_iff.mpr (fun hb => not_both_headers f ⟨h1, hb⟩)
    simp [List.find?, h2]
  · rw [if_neg h1]
    by_cases h2 : isDescriptionHeader f = true
    · rw [if_pos h2]
      simp [List.find?, h2]
    · rw [if_neg h2]
      simp [List.find?, Bool.eq_false_iff.mpr h2]

lemma findCols_foldl (fields : List PyStr) :
    ∀ p : Option PyStr × Option PyStr,
      List.foldl findColsStep p fields =
        ((fields.reverse.find? isFilenameHeader).or p.1,
         (fields.reverse.find? isDescriptionHeader).or p.2) := by
  induction fields with
  | nil => intro p; simp [List.find?]
  | cons f fs ih =>
    intro p
    rw [List.foldl_cons, ih, List.reverse_cons, List.find?_append, List.find?_append,
      Option.or_assoc, Option.or_assoc, findColsStep_fst, findColsStep_snd]

/-- C2 (corrected, amended): when several header cells normalize to a
recognized filename (resp. description) name, the LAST matching header in
header order is the one used — each match overwrites the previously tracked
column during the scan. -/
theorem c2_header_scan_last_match (fields : List PyStr) :
    (findCols fields).1 = fields.reverse.find? isFilenameHeader ∧
    (findCols fields).2 = fields.reverse.find? isDescriptionHeader := by
  unfold findCols
  rw [findCols_foldl]
  simp

/-- C2 counterexample: with header `name,filename,description` both `name` and
`filename` normalize to recognized filename names; the parser uses the LAST
match (`filename`, whose cell is `B`), while the claim's first-match reading
would use `name` (whose cell is `A`). -/
theorem c2_header_scan_counterexample :
    parse_flmd_file ("name,filename,description\nA,B,descB".toList) =
      [("B".toList, "descB".toList)] ∧
    parseFlmdFirstMatch ("name,filename,description\nA,B,descB".toList) =
      [("A".toList, "descB".toList)] ∧
    parse_flmd_file ("name,filename,description\nA,B,descB".toList) ≠
      parseFlmdFirstMatch ("name,filename,description\nA,B,descB".toList) := by
  decide

/-! Lemmas about the FLMD row loop. -/

lemma processRow_some_rowOk {headers : List PyStr} {fcol dcol : PyStr}
    {acc acc2 : List (PyStr × PyStr)} {r : List PyStr}
    (h : processRow headers fcol dcol acc r = some acc2) :
    (cellValue headers r fcol).isSome = true ∧ (cellValue headers r dcol).isSome = true := by
  unfold processRow at h
  cases h1 : cellValue headers r fcol with
  | none => rw [h1] at h; exact absurd h (by simp)
  | some fv =>
    rw [h1] at h
    cases h2 : cellValue headers r dcol with
    | none => rw [h2] at h; exact absurd h (by simp)
    | some dv => exact ⟨by simp [h1], by simp [h2]⟩

lemma processRow_none_rowOk {headers : List PyStr} {fcol dcol : PyStr}
    {acc : List (PyStr × PyStr)} {r : List PyStr} (hr : r ≠ [])
    (h : processRow headers fcol dcol acc r = Option.none) :
    rowOk headers fcol dcol r = false := by
  unfold processRow at h
  unfold rowOk
  cases h1 : cellValue headers r fcol with
  | none => simp [hr]
  | some fv =>
    rw [h1] at h
    cases h2 : cellValue headers r dcol with
    | none => simp [hr]
    | some dv =>
      rw [h2] at h
      exfalso
      have h' : (if stripPy fv ≠ [] ∧ stripPy dv ≠ [] then
            some (dictInsert acc (stripPy fv) (sanitizeStr (stripPy dv)))
          else some acc) = (Option.none : Option (List (PyStr × PyStr))) := h
      by_cases hc : stripPy fv ≠ [] ∧ stripPy dv ≠ []
      · rw [if_pos hc] at h'; exact absurd h' (by simp)
      · rw [if_neg hc] at h'; exact absurd h' (by simp)

lemma runRows_spec (headers : List PyStr) (fcol dcol : PyStr) :
    ∀ (rows : List (List PyStr)) (acc : List (PyStr × PyStr)),
      ∃ k, k ≤ rows.length ∧
        runRows headers fcol dcol rows acc =
          (rows.take k).foldl (applyRow headers fcol dcol) acc ∧
        (∀ r ∈ rows.take k, rowOk headers fcol dcol r = true) ∧
        (k = rows.length ∨
          ∃ r, rows[k]? = some r ∧ rowOk headers fcol dcol r = false) := by
  intro rows
  induction rows with
  | nil =>
    intro acc
    exact ⟨0, le_rfl, by simp [runRows], by simp, Or.inl rfl⟩
  | cons r rs ih =>
    intro acc
    by_cases hr : r = []
    · obtain ⟨k, hk, heq, hok, hstop⟩ := ih acc
      refine ⟨k + 1, by simpa using hk, ?_, ?_, ?_⟩
      · rw [List.take_succ_cons, List.foldl_cons,
          show applyRow headers fcol dcol acc r = acc from by simp [applyRow, hr],
          show runRows headers fcol dcol (r :: rs) acc = runRows headers fcol dcol rs acc
            from by simp [runRows, hr]]
        exact heq
      · intro x hx
        rw [List.take_succ_cons] at hx
        rcases List.mem_cons.mp hx with rfl | hmem
        · simp [rowOk, hr]
        · exact hok x hmem
      · rcases hstop with hlen | ⟨x, hx, hbad⟩
        · exact Or.inl (by simp [hlen])
        · exact Or.inr ⟨x, by simpa [List.getElem?_cons_succ] using hx, hbad⟩
    · cases hpr : processRow headers fcol dcol acc r with
      | some acc2 =>
        obtain ⟨k, hk, heq, hok, hstop⟩ := ih acc2
        refine ⟨k + 1, by simpa using hk, ?_, ?_, ?_⟩
        · rw [List.take_succ_cons, List.foldl_cons,
            show applyRow headers fcol dcol acc r = acc2 from by simp [applyRow, hr, hpr],
            show runRows headers fcol dcol (r :: rs) acc = runRows headers fcol dcol rs acc2
              from by simp [runRows, hr, hpr]]
          exact heq
        · intro x hx
          rw [List.take_succ_cons] at hx
          rcases List.mem_cons.mp hx with rfl | hmem
          · obtain ⟨hc1, hc2⟩ := processRow_some_rowOk hpr
            simp [rowOk, hc1, hc2]
          · exact hok x hmem
        · rcases hstop with hlen | ⟨x, hx, hbad⟩
          · exact Or.inl (by simp [hlen])
          · exact Or.inr ⟨x, by simpa [List.getElem?_cons_succ] using hx, hbad⟩
      | none =>
        refine ⟨0, Nat.zero_le _, ?_, by simp, Or.inr ⟨r, by simp, ?_⟩⟩
        · simp [runRows, hr, hpr]
        · exact processRow_none_rowOk hr hpr

/-- C3 (confirmed): `parse_flmd_file` is a total function — the modelled
exceptions (a tracked cell read as `None` from a short row, on which
`.strip()` raises) never escape: when the header phase fails the mapping is
empty, and otherwise the result is exactly the mapping accumulated over the
longest prefix of data rows that process without raising, a raising row (if
any) stopping the loop with the mapping accumulated so far. -/
theorem c3_parse_flmd_never_raises (content : PyStr) :
    (headerSetup content = Option.none ∧ parse_flmd_file content = []) ∨
    (∃ h f d rows k, headerSetup content = some (h, f, d, rows) ∧ k ≤ rows.length ∧
      parse_flmd_file content = (rows.take k).foldl (applyRow h f d) [] ∧
      (∀ r ∈ rows.take k, rowOk h f d r = true) ∧
      (k = rows.length ∨ ∃ r, rows[k]? = some r ∧ rowOk h f d r = false)) := by
  cases hs : headerSetup content with
  | none =>
    exact Or.inl ⟨rfl, by simp [parse_flmd_file, hs]⟩
  | some t =>
    obtain ⟨h, f, d, rows⟩ := t
    obtain ⟨k, hk, heq, hok, hstop⟩ := runRows_spec h f d rows []
    exact Or.inr ⟨h, f, d, rows, k, rfl, hk,
      by rw [show parse_flmd_file content = runRows h f d rows [] from by
        simp [parse_flmd_file, hs]]; exact heq, hok, hstop⟩

/-- C3 witness: the characterization evaluated on a concrete FLMD text whose
second data row is short (its description cell is `None`), so the parser
returns just the first row's entry. -/
theorem c3_parse_flmd_witness :
    parse_flmd_file ("filename,description\na.csv,first\nb.csv\nc.csv,third".toList) =
      [("a.csv".toList, "first".toList)] ∧
    ((headerSetup ("filename,description\na.csv,first\nb.csv\nc.csv,third".toList) =
        Option.none ∧
      parse_flmd_file ("filename,description\na.csv,first\nb.csv\nc.csv,third".toList) = []) ∨
    (∃ h f d rows k,
      headerSetup ("filename,description\na.csv,first\nb.csv\nc.csv,third".toList) =
        some (h, f, d, rows) ∧ k ≤ rows.length ∧
      parse_flmd_file ("filename,description\na.csv,first\nb.csv\nc.csv,third".toList) =
        (rows.take k).foldl (applyRow h f d) [] ∧
      (∀ r ∈ rows.take k, rowOk h f d r = true) ∧
      (k = rows.length ∨ ∃ r, rows[k]? = some r ∧ rowOk h f d r = false))) :=
  ⟨by decide, c3_parse_flmd_never_raises _⟩

/-! Lemmas about the field sanitizer. -/

lemma collapseWsGo_mem_ws :
    ∀ (fuel : Nat) (l : PyStr), l.length ≤ fuel →
      ∀ c ∈ collapseWsGo fuel l, isPyWs c = true → c = ' ' := by
  intro fuel
  induction fuel with
  | zero =>
    intro l h c hc _
    have hl : l = [] := List.eq_nil_of_length_eq_zero (Nat.le_zero.mp h)
    subst hl
    simp [collapseWsGo] at hc
  | succ f ih =>
    intro l h c hc hw
    cases l with
    | nil => simp [collapseWsGo] at hc
    | cons a rest =>
      simp only [collapseWsGo] at hc
      by_cases ha : isPyWs a = true
      · rw [if_pos ha] at hc
        rcases List.mem_cons.mp hc with rfl | hmem
        · rfl
        · exact ih (rest.dropWhile isPyWs)
            (le_trans (List.dropWhile_suffix _).length_le (by simpa using h)) c hmem hw
      · rw [if_neg ha] at hc
        rcases List.mem_cons.mp hc with rfl | hmem
        · exact absurd hw (by simpa using ha)
        · exact ih rest (by simpa using h) c hmem hw

lemma collapseWsGo_head_not_ws (fuel : Nat) (l : PyStr)
    (hl : ∀ c r, l = c :: r → isPyWs c = false) :
    ∀ y, (collapseWsGo fuel l).head? = some y → isPyWs y = false := by
  intro y hy
  cases l with
  | nil =>
    cases fuel <;> simp [collapseWsGo] at hy
  | cons a rest =>
    have ha : isPyWs a = false := hl a rest rfl
    cases fuel with
    | zero =>
      simp only [collapseWsGo, List.head?_cons, Option.some.injEq] at hy
      subst hy; exact ha
    | succ f =>
      simp only [collapseWsGo] at hy
      rw [if_neg (by simp [ha])] at hy
      simp only [List.head?_cons, Option.some.injEq] at hy
      subst hy; exact ha

lemma collapseWsGo_chain :
    ∀ (fuel : Nat) (l : PyStr), l.length ≤ fuel →
      List.Chain' (fun a b => ¬(isPyWs a = true ∧ isPyWs b = true)) (collapseWsGo fuel l) := by
  intro fuel
  induction fuel with
  | zero =>
    intro l h
    have hl : l = [] := List.eq_nil_of_length_eq_zero (Nat.le_zero.mp h)
    subst hl
    simp [collapseWsGo]
  | succ f ih =>
    intro l h
    cases l with
    | nil => simp [collapseWsGo]
    | cons a rest =>
      simp only [collapseWsGo]
      by_cases ha : isPyWs a = true
      · rw [if_pos ha]
        rw [List.chain'_cons']
        constructor
        · intro y hy
          have hy' : isPyWs y = false :=
            collapseWsGo_head_not_ws f (rest.dropWhile isPyWs)
              (fun c r hcr => dropWhile_head_false hcr) y hy
          simp [hy']
        · exact ih (rest.dropWhile isPyWs)
            (le_trans (List.dropWhile_suffix _).length_le (by simpa using h))
      · rw [if_neg ha]
        rw [List.chain'_cons']
        constructor
        · intro y _
          simp [ha]
        · exact ih rest (by simpa using h)

lemma filter_not_ws_dropWhile (l : PyStr) :
    (l.dropWhile isPyWs).filter (fun c => !isPyWs c) = l.filter (fun c => !isPyWs c) := by
  induction l with
  | nil => rfl
  | cons a rest ih =>
    rw [List.dropWhile_cons]
    by_cases ha : isPyWs a = true
    · rw [if_pos ha, List.filter_cons, if_neg (by simp [ha])]
      exact ih
    · rw [if_neg ha]

lemma collapseWsGo_filter :
    ∀ (fuel : Nat) (l : PyStr), l.length ≤ fuel →
      (collapseWsGo fuel l).filter (fun c => !isPyWs c) = l.filter (fun c => !isPyWs c) := by
  intro fuel
  induction fuel with
  | zero =>
    intro l h
    have hl : l = [] := List.eq_nil_of_length_eq_zero (Nat.le_zero.mp h)
    subst hl
    rfl
  | succ f ih =>
    intro l h
    cases l with
    | nil => rfl
    | cons a rest =>
      simp only [collapseWsGo]
      by_cases ha : isPyWs a = true
      · rw [if_pos ha, List.filter_cons, List.filter_cons, if_neg (by decide),
          if_neg (by simp [ha]), ih (rest.dropWhile isPyWs)
            (le_trans (List.dropWhile_suffix _).length_le (by simpa using h)),
          filter_not_ws_dropWhile]
      · rw [if_neg ha, List.filter_cons, List.filter_cons,
          ih rest (by simpa using h)]

lemma stripPy_subset (l : PyStr) : stripPy l ⊆ l :=
  fun _ hc => List.IsInfix.subset (stripPy_within l) hc

lemma filter_not_ws_stripPy (l : PyStr) :
    (stripPy l).filter (fun c => !isPyWs c) = l.filter (fun c => !isPyWs c) := by
  unfold stripPy rstripPy
  rw [List.filter_reverse, filter_not_ws_dropWhile, List.filter_reverse,
    List.reverse_reverse]
  exact filter_not_ws_dropWhile l

lemma sanitizeStr_mem_ws {s : PyStr} : ∀ c ∈ sanitizeStr s, isPyWs c = true → c = ' ' := by
  intro c hc hw
  have hc' : c ∈ collapseWs (s.map replCtl) := stripPy_subset _ hc
  exact collapseWsGo_mem_ws _ _ le_rfl c hc' hw

lemma sanitizeStr_chain (s : PyStr) :
    List.Chain' (fun a b => ¬(isPyWs a = true ∧ isPyWs b = true)) (sanitizeStr s) :=
  List.Chain'.infix (collapseWsGo_chain _ _ le_rfl) (stripPy_within _)

lemma sanitizeStr_filter (s : PyStr) :
    (sanitizeStr s).filter (fun c => !isPyWs c) = (s.map replCtl).filter (fun c => !isPyWs c) := by
  unfold sanitizeStr
  rw [filter_not_ws_stripPy]
  exact collapseWsGo_filter _ _ le_rfl

/-- C6 (confirmed): `sanitize_tsv_field` maps `None` to `""`, coerces
non-strings to their textual representation, and yields single-line collapsed
trimmed text: the three specified examples hold, every whitespace character
surviving in the output is a plain space (so no carriage return, newline or
tab remains), no two adjacent output characters are both whitespace (runs are
collapsed), the output neither starts nor ends with whitespace (trimmed), and
the non-whitespace characters of the control-replaced input are preserved in
order. -/
theorem c6_sanitize_tsv_field :
    sanitize_tsv_field PyVal.vnone = [] ∧
    sanitize_tsv_field (PyVal.vint 123) = "123".toList ∧
    sanitize_tsv_field (PyVal.vstr "a\nb\tc  d".toList) = "a b c d".toList ∧
    (∀ v : PyVal, ∀ c ∈ sanitize_tsv_field v, isPyWs c = true → c = ' ') ∧
    (∀ v : PyVal,
      List.Chain' (fun a b => ¬(isPyWs a = true ∧ isPyWs b = true)) (sanitize_tsv_field v)) ∧
    (∀ v : PyVal, ∀ y, (sanitize_tsv_field v).head? = some y → isPyWs y = false) ∧
    (∀ v : PyVal, ∀ y, (sanitize_tsv_field v).getLast? = some y → isPyWs y = false) ∧
    (∀ s : PyStr, (sanitizeStr s).filter (fun c => !isPyWs c) =
      (s.map replCtl).filter (fun c => !isPyWs c)) := by
  refine ⟨by decide, by decide, by decide, ?_, ?_, ?_, ?_, sanitizeStr_filter⟩
  · intro v
    cases v with
    | vnone => intro c hc; simp [sanitize_tsv_field] at hc
    | vstr s => exact sanitizeStr_mem_ws
    | vint n => exact sanitizeStr_mem_ws
  · intro v
    cases v with
    | vnone => simp [sanitize_tsv_field]
    | vstr s => exact sanitizeStr_chain s
    | vint n => exact sanitizeStr_chain _
  · intro v y hy
    cases v with
    | vnone => simp [sanitize_tsv_field] at hy
    | vstr s => exact stripPy_head_not_ws hy
    | vint n => exact stripPy_head_not_ws hy
  · intro v y hy
    cases v with
    | vnone => simp [sanitize_tsv_field] at hy
    | vstr s => exact stripPy_getLast_not_ws hy
    | vint n => exact stripPy_getLast_not_ws hy

/-- C6 witness: the trimming clause applied at the concrete input `" ab "`,
whose sanitized head is `a`. -/
theorem c6_sanitize_tsv_field_witness : isPyWs 'a' = false :=
  c6_sanitize_tsv_field.2.2.2.2.2.1 (PyVal.vstr " ab ".toList) 'a' (by decide)

/-! Claims about the request builders and the formatter. -/

/-- C4 (confirmed): every field-index search transmits
`pageSize = min(page_size, 100)`; a supplied non-empty DOI list is transmitted
as exactly its first 100 entries (a prefix of the list of length
`min 100 (length)`, so at most 100); in particular `page_size = 200` transmits
`pageSize = 100`. -/
theorem c4_search_ess_deepdive_clamps (a : DeepDiveArgs) (row_start page_size : Int) :
    (search_ess_deepdive a row_start page_size).pageSize = min page_size 100 ∧
    (page_size = 200 → (search_ess_deepdive a row_start page_size).pageSize = 100) ∧
    (∀ l, a.doi = some l → l ≠ [] →
      (search_ess_deepdive a row_start page_size).doi = some (l.take 100) ∧
      (l.take 100).length = min 100 l.length ∧ l.take 100 <+: l) := by
  refine ⟨rfl, ?_, ?_⟩
  · intro h
    subst h
    rfl
  · intro l hl hne
    refine ⟨?_, by rw [List.length_take], by exact List.take_prefix 100 l⟩
    simp only [search_ess_deepdive, hl]
    rw [if_neg hne]

/-- C4 witness: a 150-element DOI list and `page_size = 200` transmit
`pageSize = 100` and exactly the first 100 DOIs. -/
theorem c4_search_ess_deepdive_witness :
    (search_ess_deepdive
      ⟨Option.none, Option.none, Option.none, Option.none, Option.none, Option.none,
        Option.none, some (List.replicate 150 ("d".toList))⟩ 1 200).pageSize = 100 ∧
    (search_ess_deepdive
      ⟨Option.none, Option.none, Option.none, Option.none, Option.none, Option.none,
        Option.none, some (List.replicate 150 ("d".toList))⟩ 1 200).doi =
      some ((List.replicate 150 ("d".toList)).take 100) := by
  have h := c4_search_ess_deepdive_clamps
    ⟨Option.none, Option.none, Option.none, Option.none, Option.none, Option.none,
      Option.none, some (List.replicate 150 ("d".toList))⟩ 1 200
  exact ⟨h.2.1 rfl, (h.2.2 (List.replicate 150 ("d".toList)) rfl (by decide)).1⟩

/-- C9 (confirmed, implicit claim): for every combination of its arguments, the
`search-datasets` tool issues the catalog request with `isPublic` transmitted
as the literal string `"true"` — the tool passes `is_public=True` and exposes
no parameter that could change it. -/
theorem c9_search_datasets_always_public
    (query creator provider_name date_published : Option PyStr)
    (keywords : KwArg) (row_start page_size : Int) :
    (searchDatasetsToolParams query creator provider_name date_published keywords
        row_start page_size).isPublic = some ("true".toList) := rfl

/-- C8 (confirmed): in the `detailed` rendering, a list-of-strings description
is joined with spaces; an empty (joined) description produces no description
line; one of at most 300 characters is rendered in full with no ellipsis; a
longer one is truncated to its first 300 characters with `...` appended. -/
theorem c8_detailed_description_truncation (d : DescVal) :
    (∀ l, d = DescVal.dlist l → joinedDescription d = List.intercalate [' '] l) ∧
    (joinedDescription d = [] → descriptionPart d = []) ∧
    (joinedDescription d ≠ [] → (joinedDescription d).length ≤ 300 →
      descriptionPart d = "   Description: ".toList ++ joinedDescription d ++ ['\n']) ∧
    (300 < (joinedDescription d).length →
      descriptionPart d =
        "   Description: ".toList ++ (joinedDescription d).take 300 ++ "...".toList ++ ['\n']) := by
  refine ⟨?_, ?_, ?_, ?_⟩
  · intro l hl
    subst hl
    rfl
  · intro h
    unfold descriptionPart
    rw [if_pos h]
  · intro hne h300
    unfold descriptionPart
    rw [if_neg hne, List.take_of_length_le h300, if_neg (by omega), List.append_nil]
  · intro h300
    have hne : joinedDescription d ≠ [] := by
      intro h
      rw [h] at h300
      simp at h300
    unfold descriptionPart
    rw [if_neg hne, if_pos h300]

set_option maxRecDepth 4000 in
/-- C8 witness: the truncation clauses evaluated at a 301-character description
(truncated, with ellipsis) and at a short one (rendered in full). -/
theorem c8_detailed_description_witness :
    descriptionPart (DescVal.dstr (List.replicate 301 'x')) =
      "   Description: ".toList ++ (List.replicate 301 'x').take 300 ++ "...".toList ++ ['\n'] ∧
    descriptionPart (DescVal.dstr "hi".toList) =
      "   Description: ".toList ++ "hi".toList ++ ['\n'] :=
  ⟨(c8_detailed_description_truncation (DescVal.dstr (List.replicate 301 'x'))).2.2.2
      (by decide),
    (c8_detailed_description_truncation (DescVal.dstr "hi".toList)).2.2.1
      (by decide) (by decide)⟩

/-! Lemmas about the multi-page fetch loop. -/

lemma fetchRow_zero (row page_size : Int) : fetchRow row page_size 0 = row := by
  unfold fetchRow
  simp

lemma fetchRow_succ (row page_size : Int) (i : Nat) :
    fetchRow row page_size (i + 1) = fetchRow (row + page_size) page_size i := by
  unfold fetchRow
  push_cast
  ring

lemma fetchLoopGo_spec (a : DeepDiveArgs) (oracle : Int → DeepDivePage) (page_size : Int) :
    ∀ (fuel : Nat) (row : Int),
      ∃ k, k ≤ fuel ∧ (1 ≤ fuel → 1 ≤ k) ∧
        fetchLoopGo a page_size oracle fuel row =
          (((List.range k).map
              (fun i => (oracle (fetchRow row page_size i)).results.getD [])).flatten,
           (List.range k).map
              (fun i => search_ess_deepdive a (fetchRow row page_size i) page_size)) ∧
        (∀ i : Nat, i + 1 < k → 1 < (oracle (fetchRow row page_size i)).pageCount) ∧
        (k = fuel ∨ (1 ≤ k ∧ (oracle (fetchRow row page_size (k - 1))).pageCount ≤ 1)) := by
  intro fuel
  induction fuel with
  | zero =>
    intro row
    exact ⟨0, le_rfl, by omega, by simp [fetchLoopGo], by omega, Or.inl rfl⟩
  | succ f ih =>
    intro row
    by_cases hpc : (oracle row).pageCount ≤ 1
    · refine ⟨1, by omega, fun _ => le_rfl, ?_, by omega, Or.inr ⟨le_rfl, ?_⟩⟩
      · simp only [fetchLoopGo]
        rw [if_pos hpc, show List.range 1 = [0] from rfl]
        simp [fetchRow_zero]
      · simpa [fetchRow_zero] using hpc
    · obtain ⟨k', hk'le, hk'pos, heq, hmid, hstop⟩ := ih (row + page_size)
      have hr1 : ((List.range (k' + 1)).map
            (fun i => (oracle (fetchRow row page_size i)).results.getD [])) =
          ((oracle row).results.getD []) ::
            ((List.range k').map
              (fun i => (oracle (fetchRow (row + page_size) page_size i)).results.getD [])) := by
        rw [List.range_succ_eq_map, List.map_cons, List.map_map]
        congr 1
        · rw [fetchRow_zero]
        · have hfun : ((fun i => (oracle (fetchRow row page_size i)).results.getD []) ∘
              Nat.succ) =
              (fun i => (oracle (fetchRow (row + page_size) page_size i)).results.getD []) := by
            funext i
            simp only [Function.comp_apply, Nat.succ_eq_add_one]
            rw [fetchRow_succ]
          rw [hfun]
      have hr2 : ((List.range (k' + 1)).map
            (fun i => search_ess_deepdive a (fetchRow row page_size i) page_size)) =
          (search_ess_deepdive a row page_size) ::
            ((List.range k').map
              (fun i => search_ess_deepdive a (fetchRow (row + page_size) page_size i) page_size)) := by
        rw [List.range_succ_eq_map, List.map_cons, List.map_map]
        congr 1
        · rw [fetchRow_zero]
        · have hfun : ((fun i => search_ess_deepdive a (fetchRow row page_size i) page_size) ∘
              Nat.succ) =
              (fun i => search_ess_deepdive a (fetchRow (row + page_size) page_size i)
                page_size) := by
            funext i
            simp only [Function.comp_apply, Nat.succ_eq_add_one]
            rw [fetchRow_succ]
          rw [hfun]
      refine ⟨k' + 1, by omega, fun _ => by omega, ?_, ?_, ?_⟩
      · simp only [fetchLoopGo]
        rw [if_neg hpc, heq, hr1, hr2, List.flatten_cons]
      · intro i hi
        cases i with
        | zero =>
          rw [fetchRow_zero]
          omega
        | succ j =>
          rw [fetchRow_succ]
          exact hmid j (by omega)
      · rcases hstop with hlen | ⟨hk1, hpcstop⟩
        · exact Or.inl (by omega)
        · refine Or.inr ⟨by omega, ?_⟩
          rw [show k' + 1 - 1 = (k' - 1) + 1 from by omega, fetchRow_succ]
          exact hpcstop

/-- C5 (confirmed): when the `search-ess-deepdive` tool is invoked with
`max_pages > 1`, there is a fetch count `k` with `1 ≤ k ≤ max_pages` such that
the loop issues exactly the requests at offsets
`row_start, row_start + page_size, …, row_start + (k-1)·page_size` (in that
order), accumulates the `results` items of the fetched pages in fetch order,
continues only past pages whose reported `pageCount` exceeds 1, and stops
either because the requested page count is reached (`k = max_pages`) or
because the last fetched page reported `pageCount ≤ 1`. -/
theorem c5_multipage_accumulation (a : DeepDiveArgs) (oracle : Int → DeepDivePage)
    (max_pages : Nat) (row_start page_size : Int) (hmp : 1 < max_pages) :
    ∃ k, 1 ≤ k ∧ k ≤ max_pages ∧
      search_ess_deepdive_tool_multipage a oracle max_pages row_start page_size =
        (((List.range k).map
            (fun i => (oracle (fetchRow row_start page_size i)).results.getD [])).flatten,
         (List.range k).map
            (fun i => search_ess_deepdive a (fetchRow row_start page_size i) page_size)) ∧
      (∀ i : Nat, i + 1 < k → 1 < (oracle (fetchRow row_start page_size i)).pageCount) ∧
      (k = max_pages ∨ (oracle (fetchRow row_start page_size (k - 1))).pageCount ≤ 1) := by
  obtain ⟨k, hk, hpos, heq, hmid, hstop⟩ :=
    fetchLoopGo_spec a oracle page_size max_pages row_start
  refine ⟨k, hpos (by omega), hk, heq, hmid, ?_⟩
  rcases hstop with h | ⟨_, h⟩
  · exact Or.inl h
  · exact Or.inr h

/-- C5 witness: the pagination characterization evaluated at a concrete oracle
that always reports two pages, with `max_pages = 2`. -/
theorem c5_multipage_accumulation_witness :
    ∃ k, 1 ≤ k ∧ k ≤ 2 ∧
      search_ess_deepdive_tool_multipage
          ⟨Option.none, Option.none, Option.none, Option.none, Option.none, Option.none,
            Option.none, Option.none⟩
          (fun _ => ⟨some [7], 2⟩) 2 1 25 =
        (((List.range k).map
            (fun i => ((fun (_ : Int) => DeepDivePage.mk (some [7]) 2)
                (fetchRow 1 25 i)).results.getD [])).flatten,
         (List.range k).map
            (fun i => search_ess_deepdive
              ⟨Option.none, Option.none, Option.none, Option.none, Option.none, Option.none,
                Option.none, Option.none⟩ (fetchRow 1 25 i) 25)) ∧
      (∀ i : Nat, i + 1 < k →
        1 < ((fun (_ : Int) => DeepDivePage.mk (some [7]) 2) (fetchRow 1 25 i)).pageCount) ∧
      (k = 2 ∨
        ((fun (_ : Int) => DeepDivePage.mk (some [7]) 2) (fetchRow 1 25 (k - 1))).pageCount ≤ 1) :=
  c5_multipage_accumulation
    ⟨Option.none, Option.none, Option.none, Option.none, Option.none, Option.none,
      Option.none, Option.none⟩
    (fun _ => ⟨some [7], 2⟩) 2 1 25 (by omega)

/-- C10 (confirmed, implicit claim): in the multi-page loop, each transmitted
request carries `pageSize = min(page_size, 100)` while consecutive requests'
`rowStart` values differ by the full caller-supplied `page_size`; hence for
`page_size > 100` the next `rowStart` exceeds the previous request's last
covered row (`rowStart + pageSize`) by `page_size - 100` rows, which are never
fetched. -/
theorem c10_multipage_row_gap (a : DeepDiveArgs) (oracle : Int → DeepDivePage)
    (max_pages : Nat) (row_start page_size : Int) (hmp : 1 < max_pages)
    (i : Nat) (req1 req2 : DeepDiveParams)
    (h1 : (search_ess_deepdive_tool_multipage a oracle max_pages row_start
        page_size).2[i]? = some req1)
    (h2 : (search_ess_deepdive_tool_multipage a oracle max_pages row_start
        page_size).2[i + 1]? = some req2) :
    req1.pageSize = min page_size 100 ∧
    req2.rowStart = req1.rowStart + page_size ∧
    (100 < page_size →
      req2.rowStart = req1.rowStart + req1.pageSize + (page_size - 100)) := by
  obtain ⟨k, hk, hpos, heq, hmid, hstop⟩ :=
    fetchLoopGo_spec a oracle page_size max_pages row_start
  simp only [search_ess_deepdive_tool_multipage] at h1 h2
  rw [heq] at h1 h2
  simp only [] at h1 h2
  have hik : i + 1 < k := by
    by_contra hko
    rw [List.getElem?_map, List.getElem?_eq_none (by simp [List.length_range]; omega)] at h2
    simp at h2
  have hi : i < k := by omega
  rw [List.getElem?_map, List.getElem?_range hi] at h1
  rw [List.getElem?_map, List.getElem?_range hik] at h2
  simp only [Option.map_some', Option.some.injEq] at h1 h2
  subst h1
  subst h2
  refine ⟨rfl, ?_, ?_⟩
  · show fetchRow row_start page_size (i + 1) = fetchRow row_start page_size i + page_size
    unfold fetchRow
    push_cast
    ring
  · intro hps
    show fetchRow row_start page_size (i + 1) =
      fetchRow row_start page_size i + min page_size 100 + (page_size - 100)
    rw [min_eq_right (by omega : (100 : Int) ≤ page_size)]
    unfold fetchRow
    push_cast
    ring

/-- C10 witness: with `page_size = 250` and an oracle always reporting five
pages, the first two transmitted requests are at rows 1 and 251 with
`pageSize = 100`, leaving a gap of 150 rows. -/
theorem c10_multipage_row_gap_witness :
    (search_ess_deepdive
        ⟨Option.none, Option.none, Option.none, Option.none, Option.none, Option.none,
          Option.none, Option.none⟩ (fetchRow 1 250 0) 250).pageSize = min 250 100 ∧
    (search_ess_deepdive
        ⟨Option.none, Option.none, Option.none, Option.none, Option.none, Option.none,
          Option.none, Option.none⟩ (fetchRow 1 250 1) 250).rowStart =
      (search_ess_deepdive
        ⟨Option.none, Option.none, Option.none, Option.none, Option.none, Option.none,
          Option.none, Option.none⟩ (fetchRow 1 250 0) 250).rowStart + 250 ∧
    (100 < (250 : Int) →
      (search_ess_deepdive
        ⟨Option.none, Option.none, Option.none, Option.none, Option.none, Option.none,
          Option.none, Option.none⟩ (fetchRow 1 250 1) 250).rowStart =
      (search_ess_deepdive
        ⟨Option.none, Option.none, Option.none, Option.none, Option.none, Option.none,
          Option.none, Option.none⟩ (fetchRow 1 250 0) 250).rowStart +
        (search_ess_deepdive
          ⟨Option.none, Option.none, Option.none, Option.none, Option.none, Option.none,
            Option.none, Option.none⟩ (fetchRow 1 250 0) 250).pageSize + (250 - 100)) :=
  c10_multipage_row_gap
    ⟨Option.none, Option.none, Option.none, Option.none, Option.none, Option.none,
      Option.none, Option.none⟩
    (fun _ => ⟨some [], 5⟩) 3 1 250 (by omega) 0 _ _ (by decide) (by decide)

end EssdiveMCP
